import Mathlib

/-!
Verification development for the Kaleidoscope front end
(lexer + extensible-operator parser, `src/lexer.rs`, `src/parser.rs`,
`src/ast.rs`).

The Rust code is shallowly embedded: machine floats (`f64`) are modelled
by exact rationals `ℚ` (all numeric literals relevant here are handled
identically by both), `isize` by `Int`, the char-indexed `HashMap` of
operator precedences by an association list observed only through
`tableGet`/`tableInsert`, and the mutable lexer/parser state by explicit
state passing.  Recursive-descent functions whose recursion is not
structural take an explicit fuel parameter; running out of fuel is a
distinguished outcome, never confused with a parse error.

Character classification follows the Rust `char` predicates restricted
to the ASCII inputs the grammar works with.
-/

namespace Kaleido

/-! ## Tokens (`src/lexer.rs`, enum `Token`)

The snapshot of `lexer.rs` declares the variants `Def`, `Extern`,
`Identifier`, `Number`, `Op`, `If`, `Then`, `Else`, `For`, `In`, `EoF`;
`parser.rs` additionally matches on `Token::Var`, `Token::Unary` and
`Token::Binary` (the local-binding and operator-overload keywords), so
those variants are part of the token type of the program as used by the
parser and are included here.  The embedded lexer below follows
`lexer.rs` and never produces them. -/

inductive Token where
  | Def
  | Extern
  | Identifier (s : String)
  | Number (v : ℚ)
  | Op (c : Char)
  | If
  | Then
  | Else
  | For
  | In
  | Var
  | Unary
  | Binary
  | EoF
deriving DecidableEq, Repr

/-! ## AST (`src/ast.rs` together with the nodes `parser.rs` constructs) -/

/-- `ANONYM_FUNCTION` from `src/ast.rs`. -/
def ANONYM_FUNCTION : String := "__anon_expr"

/-- Operator-overload descriptor attached to a prototype
(constructed in `Parser::parse_prototype`). -/
inductive Operator where
  | Unary
  | Binary (op_name : Char) (precedence : Int)
deriving DecidableEq, Repr

structure PrototypeAST where
  name : String
  args : List String
  operator : Option Operator
deriving DecidableEq, Repr

inductive ExprAST where
  | NumberExpr (val : ℚ)
  | VariableExpr (name : String)
  | BinaryExpr (op : Char) (lhs rhs : ExprAST)
  | UnaryExpr (opcode : Char) (operand : ExprAST)
  | CallExpr (callee : String) (args : List ExprAST)
  | IfExpr (condition then_block else_block : ExprAST)
  | ForExpr (var_name : String) (var_start var_end : ExprAST)
      (step : Option ExprAST) (body : ExprAST)
  | VarExpr (var_names : List (String × Option ExprAST)) (body : ExprAST)
deriving Repr

structure FunctionAST where
  proto : PrototypeAST
  body : ExprAST
deriving Repr

inductive TopAST where
  | Function (f : FunctionAST)
  | Prototype (p : PrototypeAST)
deriving Repr

/-- Modelled from the spec: `src/ast.rs` in the snapshot predates the
operator-overload chapter and lacks `gen_unary_func_name`; per §3 the
synthesized name is a fixed prefix plus the operator character. -/
def genUnaryFuncName (c : Char) : String := "unary" ++ String.mk [c]

/-- Modelled from the spec: `src/ast.rs` in the snapshot lacks
`gen_binary_func_name`; per §3 the synthesized name is a fixed prefix
plus the operator character. -/
def genBinaryFuncName (c : Char) : String := "binary" ++ String.mk [c]

/-! ## Operator table (`token_precedence : HashMap<char, isize>`)

The map is only ever observed through `get` and `insert`, so an
association list with first-match lookup is an exact model. -/

def OpTable := List (Char × Int)

instance : DecidableEq OpTable := by
  unfold OpTable
  infer_instance

instance : Repr OpTable := by
  unfold OpTable
  infer_instance

/-- `HashMap::get` (first matching entry). -/
def tableGet (t : OpTable) (c : Char) : Option Int :=
  match t with
  | [] => none
  | (c', p) :: rest => if c' = c then some p else tableGet rest c

/-- `HashMap::insert` (overwrites any earlier entry, as seen by `tableGet`). -/
def tableInsert (t : OpTable) (c : Char) (p : Int) : OpTable :=
  (c, p) :: t

/-- `BIN_OP_PRIORITY` from `src/parser.rs`. -/
def BIN_OP_PRIORITY : OpTable :=
  [('=', 2), ('<', 10), ('+', 20), ('-', 20), ('*', 40)]

/-! ## Lexer (`src/lexer.rs`)

The character stream is a `List Char`; `Peekable<Chars>` is modelled by
looking at the head of the remaining list. -/

/-- Rust `char::is_whitespace`, restricted to ASCII. -/
def isWhitespaceChar (c : Char) : Bool := c.isWhitespace

/-- Rust `char::is_alphabetic`, restricted to ASCII. -/
def isAlphabeticChar (c : Char) : Bool := c.isAlpha

/-- Rust `char::is_alphanumeric`, restricted to ASCII.  In particular it
is `false` for `'_'`, exactly as in Rust. -/
def isAlphanumericChar (c : Char) : Bool := c.isAlphanum

/-- Rust `char::is_numeric` (the check on the *first* character of a
numeric literal, `lexer.rs` line 130), restricted to ASCII: a decimal
digit; note `'.'` is not `is_numeric`. -/
def isNumericStartChar (c : Char) : Bool := c.isDigit

/-- `Lexer::is_numeric`: the characters a numeric run may contain. -/
def is_numeric (c : Char) : Bool := c = '.' || c.isDigit

/-- `Lexer::consume_whitespaces` together with the `consume_until_eol`
helper it calls on a `#`.  The two interleaved Rust loops both advance
one character at a time, so they are fused into one structural recursion
over the character list; the `Bool` records whether the scan is
currently inside a line comment (`consume_until_eol` mode). -/
def consumeWhitespacesAux : Bool → List Char → List Char
  | _, [] => []
  | true, c :: rest =>
    if c = '\n' then consumeWhitespacesAux false rest
    else consumeWhitespacesAux true rest
  | false, c :: rest =>
    if isWhitespaceChar c then consumeWhitespacesAux false rest
    else if c = '#' then consumeWhitespacesAux true rest
    else c :: rest

/-- `Lexer::consume_whitespaces`. -/
def consumeWhitespaces (cs : List Char) : List Char :=
  consumeWhitespacesAux false cs

/-- Value of a run of decimal digits. -/
def digitsVal (ds : List Char) : ℕ :=
  ds.foldl (fun a c => 10 * a + (c.toNat - 48)) 0

/-- Exact value of a decimal literal `⟨int part⟩.⟨frac part⟩` made of
digits and at most one dot. -/
def decimalValue (cs : List Char) : ℚ :=
  let ip := cs.takeWhile (fun c => c ≠ '.')
  let fp := (cs.dropWhile (fun c => c ≠ '.')).drop 1
  (digitsVal ip : ℚ) + (digitsVal fp : ℚ) / 10 ^ fp.length

/-- `str::parse::<f64>` applied to a run drawn from `{0-9,.}` (the only
strings `consume_numeric` ever parses): it succeeds iff the run contains
at least one digit and at most one dot, and the value is then exact in
`ℚ` for the literals of interest here. -/
def parseFloat (cs : List Char) : Option ℚ :=
  if cs.count '.' ≤ 1 ∧ cs.any (fun c => c.isDigit) then some (decimalValue cs)
  else none

/-- `Lexer::consume_numeric`: greedily take the `{0-9,.}` run, then
parse it; `None` when the run is malformed. -/
def consume_numeric (cs : List Char) : Option ℚ × List Char :=
  (parseFloat (cs.takeWhile is_numeric), cs.dropWhile is_numeric)

/-- `Lexer::consume_alphabetic`: greedily take the alphanumeric run. -/
def consume_alphabetic (cs : List Char) : String × List Char :=
  (String.mk (cs.takeWhile isAlphanumericChar), cs.dropWhile isAlphanumericChar)

/-- Keyword table of `<Lexer as Iterator>::next` (`lexer.rs` lines
136-143).  The snapshot has no `var`/`unary`/`binary` keywords. -/
def keywordOrIdent (s : String) : Token :=
  if s = "def" then .Def
  else if s = "extern" then .Extern
  else if s = "if" then .If
  else if s = "then" then .Then
  else if s = "else" then .Else
  else if s = "for" then .For
  else if s = "in" then .In
  else .Identifier s

/-- Outcome of one `Lexer::next` call: end of input, a `panic!()`
(the `None => panic!()` arms at `lexer.rs` lines 131/135), or a token
plus the remaining characters. -/
inductive LexStep where
  | eof
  | panic
  | token (t : Token) (rest : List Char)
deriving DecidableEq, Repr

/-- `<Lexer as Iterator>::next`. -/
def lexerNext (cs : List Char) : LexStep :=
  let cs := consumeWhitespaces cs
  match cs with
  | [] => .eof
  | c :: _ =>
    if isNumericStartChar c then
      match consume_numeric cs with
      | (none, _) => .panic
      | (some v, rest) => .token (.Number v) rest
    else if isAlphabeticChar c then
      let (s, rest) := consume_alphabetic cs
      .token (keywordOrIdent s) rest
    else .token (.Op c) cs.tail

/-- Running the lexer to exhaustion (fuelled; `none` when the fuel runs
out or a `Lexer::next` call panics). -/
def lexAll (fuel : ℕ) (cs : List Char) : Option (List Token) :=
  match fuel with
  | 0 => none
  | fuel + 1 =>
    match lexerNext cs with
    | .eof => some []
    | .panic => none
    | .token t rest => (lexAll fuel rest).map (t :: ·)

/-! ## Parser (`src/parser.rs`)

The `Peekable<Lexer>` is modelled by a `List Token`; `peek_token` and
`consume_token` map the empty list to `Token::EoF` exactly as the Rust
functions map `None`.  The `token_precedence` map is threaded
explicitly: expression-level functions only ever read it (no call path
from them reaches `add_token_precedence`), so they take it as a plain
parameter; `parse_definition` — the one writer — returns the updated
table, and `parse_top` threads it between items. -/

/-- `Parser::consume_token`. -/
def consumeToken (toks : List Token) : Token × List Token :=
  match toks with
  | [] => (.EoF, [])
  | t :: rest => (t, rest)

/-- `Parser::peek_token`. -/
def peekToken (toks : List Token) : Token :=
  match toks with
  | [] => .EoF
  | t :: _ => t

/-- `Parser::consume_and_ensure_token`.  In the Rust source the check is
`ensure!(matches!(self.consume_token(), _token), ...)`: `_token` there
is an irrefutable *binding* pattern, not a comparison with the expected
token, so the `matches!` is always true and the function unconditionally
consumes one token and returns `Ok(())` whatever was consumed.  The
embedding therefore just returns the remaining tokens and cannot
fail. -/
def consume_and_ensure_token (_expected : Token) (toks : List Token) : List Token :=
  (consumeToken toks).2

/-- `Parser::get_token_precedence`: registered precedence, or the `-1`
sentinel for an unregistered symbol. -/
def get_token_precedence (prec : OpTable) (op : Char) : Int :=
  match tableGet prec op with
  | some val => val
  | none => -1

/-- Result of a fuelled parsing function: success with the remaining
tokens, a parse error (`bail!`/`ensure!`), or fuel exhaustion (a
modelling artefact, distinct from a parse error).  Errors do not carry
the remaining tokens: in the Rust code an `Err` propagates through `?`
up to `parse_top` without any further observation of the token
stream. -/
inductive PRes (α : Type) where
  | ok (a : α) (rest : List Token)
  | err (msg : String)
  | fuelOut
deriving Repr

/-- Rust `as isize` applied to a finite float value: truncation toward
zero. -/
def floatTruncToInt (q : ℚ) : Int :=
  if 0 ≤ q then ((q.num.toNat / q.den : ℕ) : Int)
  else -(((-q).num.toNat / (-q).den : ℕ) : Int)

/-- The argument-collecting `loop` inside `Parser::parse_prototype`
(lines 329-346): consume identifiers until `)`, then perform the
arity `ensure!` for operator overloads. -/
def protoArgsLoop (operator : Option Operator) :
    List Token → List String → Except String (List String × List Token)
  | [], _ => .error "Was expecting RPAREN"
  | .Identifier id :: rest, acc => protoArgsLoop operator rest (acc ++ [id])
  | .Op ')' :: rest, acc =>
    match operator with
    | some (.Binary _ _) =>
      if acc.length = 2 then .ok (acc, rest) else .error "args.len() == 2"
    | some .Unary =>
      if acc.length = 1 then .ok (acc, rest) else .error "args.len() == 1"
    | none => .ok (acc, rest)
  | _ :: _, _ => .error "Was expecting RPAREN"

/-- Shared tail of `Parser::parse_prototype` once name and operator
descriptor are determined: consume the `(` (via the infallible
`consume_and_ensure_token`) and run the argument loop. -/
def parsePrototypeRest (name : String) (operator : Option Operator)
    (toks : List Token) : Except String (PrototypeAST × List Token) :=
  let toks := consume_and_ensure_token (.Op '(') toks
  match protoArgsLoop operator toks [] with
  | .ok (args, rest) => .ok (⟨name, args, operator⟩, rest)
  | .error m => .error m

/-- `Parser::parse_prototype` (lines 290-347).  The precedence literal,
when present, is range-checked (`bail!` outside `[1,100]`) and then
converted with `as isize` (truncation). -/
def parse_prototype (toks : List Token) :
    Except String (PrototypeAST × List Token) :=
  match consumeToken toks with
  | (.Identifier n, rest) => parsePrototypeRest n none rest
  | (.Unary, rest) =>
    match consumeToken rest with
    | (.Op op, rest2) =>
      parsePrototypeRest (genUnaryFuncName op) (some .Unary) rest2
    | _ => .error "Was expecting an Op"
  | (.Binary, rest) =>
    match consumeToken rest with
    | (.Op op, rest2) =>
      match peekToken rest2 with
      | .Number prec_candidate =>
        if prec_candidate < 1 ∨ prec_candidate > 100 then
          .error "Invalid precedence: must be 1..100"
        else
          parsePrototypeRest (genBinaryFuncName op)
            (some (.Binary op (floatTruncToInt prec_candidate))) rest2.tail
      | _ =>
        parsePrototypeRest (genBinaryFuncName op) (some (.Binary op 30)) rest2
    | _ => .error "Was expecting an Op"
  | _ => .error "Was waiting a Token::Identifier"

/-- `Parser::parse_number_expr`. -/
def parse_number_expr (toks : List Token) : PRes ExprAST :=
  match consumeToken toks with
  | (.Number val, rest) => .ok (.NumberExpr val) rest
  | _ => .err "Was waiting for a Token::Number"

mutual

/-- `Parser::parse_expression`. -/
def parse_expression (fuel : ℕ) (prec : OpTable) (toks : List Token) :
    PRes ExprAST :=
  match fuel with
  | 0 => .fuelOut
  | fuel + 1 =>
    match parse_unary fuel prec toks with
    | .ok lhs rest => parse_bin_op_rhs fuel prec 0 lhs rest
    | .err m => .err m
    | .fuelOut => .fuelOut

/-- `Parser::parse_unary` (lines 137-151): an operator character other
than `(` and `,` in operand position is consumed as a prefix opcode. -/
def parse_unary (fuel : ℕ) (prec : OpTable) (toks : List Token) :
    PRes ExprAST :=
  match fuel with
  | 0 => .fuelOut
  | fuel + 1 =>
    match peekToken toks with
    | .Op '(' => parse_primary fuel prec toks
    | .Op ',' => parse_primary fuel prec toks
    | .Op opcode =>
      match parse_unary fuel prec toks.tail with
      | .ok operand rest => .ok (.UnaryExpr opcode operand) rest
      | .err m => .err m
      | .fuelOut => .fuelOut
    | _ => parse_primary fuel prec toks

/-- `Parser::parse_primary`. -/
def parse_primary (fuel : ℕ) (prec : OpTable) (toks : List Token) :
    PRes ExprAST :=
  match fuel with
  | 0 => .fuelOut
  | fuel + 1 =>
    match peekToken toks with
    | .Identifier _ => parse_identifier_expr fuel prec toks
    | .Number _ => parse_number_expr toks
    | .Op '(' => parse_paren_expr fuel prec toks
    | .If => parse_if_expr fuel prec toks
    | .For => parse_for_expr fuel prec toks
    | .Var => parse_var_expr fuel prec toks
    | _ => .err "Unknown token when expecting an expression"

/-- `Parser::parse_bin_op_rhs` (lines 153-178), the precedence-climbing
loop, written as recursion on the loop itself. -/
def parse_bin_op_rhs (fuel : ℕ) (prec : OpTable) (expr_precedence : Int)
    (lhs : ExprAST) (toks : List Token) : PRes ExprAST :=
  match fuel with
  | 0 => .fuelOut
  | fuel + 1 =>
    match peekToken toks with
    | .Op op =>
      let tok_prec := get_token_precedence prec op
      if tok_prec < expr_precedence then .ok lhs toks
      else
        match parse_unary fuel prec toks.tail with
        | .ok rhs rest =>
          match peekToken rest with
          | .Op next_op =>
            if tok_prec < get_token_precedence prec next_op then
              match parse_bin_op_rhs fuel prec (tok_prec + 1) rhs rest with
              | .ok rhs2 rest2 =>
                parse_bin_op_rhs fuel prec expr_precedence
                  (.BinaryExpr op lhs rhs2) rest2
              | .err m => .err m
              | .fuelOut => .fuelOut
            else
              parse_bin_op_rhs fuel prec expr_precedence
                (.BinaryExpr op lhs rhs) rest
          | _ =>
            parse_bin_op_rhs fuel prec expr_precedence
              (.BinaryExpr op lhs rhs) rest
        | .err m => .err m
        | .fuelOut => .fuelOut
    | _ => .ok lhs toks

/-- `Parser::parse_paren_expr`.  (In the Rust source, when the inner
expression fails the function still consumes one token before returning
an error; either way the call fails, and errors carry no token state
here, so the inner error is returned directly.) -/
def parse_paren_expr (fuel : ℕ) (prec : OpTable) (toks : List Token) :
    PRes ExprAST :=
  match fuel with
  | 0 => .fuelOut
  | fuel + 1 =>
    match parse_expression fuel prec (consumeToken toks).2 with
    | .ok expr rest =>
      match consumeToken rest with
      | (.Op ')', rest2) => .ok expr rest2
      | _ => .err "Was expecting a RPAREN"
    | .err m => .err m
    | .fuelOut => .fuelOut

/-- `Parser::parse_if_expr` (lines 196-208).  The `then`/`else`
keywords are "checked" with `consume_and_ensure_token`, which (see its
doc) consumes one token unconditionally and never fails. -/
def parse_if_expr (fuel : ℕ) (prec : OpTable) (toks : List Token) :
    PRes ExprAST :=
  match fuel with
  | 0 => .fuelOut
  | fuel + 1 =>
    match parse_expression fuel prec (consume_and_ensure_token .If toks) with
    | .ok condition rest =>
      match parse_expression fuel prec (consume_and_ensure_token .Then rest) with
      | .ok then_block rest =>
        match parse_expression fuel prec (consume_and_ensure_token .Else rest) with
        | .ok else_block rest => .ok (.IfExpr condition then_block else_block) rest
        | .err m => .err m
        | .fuelOut => .fuelOut
      | .err m => .err m
      | .fuelOut => .fuelOut
    | .err m => .err m
    | .fuelOut => .fuelOut

/-- `Parser::parse_for_expr` (lines 210-236). -/
def parse_for_expr (fuel : ℕ) (prec : OpTable) (toks : List Token) :
    PRes ExprAST :=
  match fuel with
  | 0 => .fuelOut
  | fuel + 1 =>
    match consumeToken (consume_and_ensure_token .For toks) with
    | (.Identifier var_name, rest) =>
      match parse_expression fuel prec (consume_and_ensure_token (.Op '=') rest) with
      | .ok var_start rest =>
        match parse_expression fuel prec (consume_and_ensure_token (.Op ',') rest) with
        | .ok var_end rest =>
          match
            (match peekToken rest with
             | .Op ',' =>
               match parse_expression fuel prec (consumeToken rest).2 with
               | .ok step rest2 => .ok (some step) rest2
               | .err m => .err m
               | .fuelOut => .fuelOut
             | _ => .ok none rest : PRes (Option ExprAST))
          with
          | .ok step rest =>
            match parse_expression fuel prec (consume_and_ensure_token .In rest) with
            | .ok body rest =>
              .ok (.ForExpr var_name var_start var_end step body) rest
            | .err m => .err m
            | .fuelOut => .fuelOut
          | .err m => .err m
          | .fuelOut => .fuelOut
        | .err m => .err m
        | .fuelOut => .fuelOut
      | .err m => .err m
      | .fuelOut => .fuelOut
    | (_, _) => .err "Was waiting for an identifier"

/-- `Parser::parse_identifier_expr` (lines 238-262). -/
def parse_identifier_expr (fuel : ℕ) (prec : OpTable) (toks : List Token) :
    PRes ExprAST :=
  match fuel with
  | 0 => .fuelOut
  | fuel + 1 =>
    match consumeToken toks with
    | (.Identifier name, rest) =>
      if peekToken rest = .Op '(' then
        if peekToken rest.tail = .Op ')' then
          .ok (.CallExpr name []) rest.tail.tail
        else parse_call_args fuel prec name [] rest.tail
      else .ok (.VariableExpr name) rest
    | _ => .err "Was waiting for a Token::Identifier"

/-- The argument-collecting `loop` inside `parse_identifier_expr`
(lines 249-258); on `break` the final `consume_token` of the caller removes
the `)`. -/
def parse_call_args (fuel : ℕ) (prec : OpTable) (callee : String)
    (acc : List ExprAST) (toks : List Token) : PRes ExprAST :=
  match fuel with
  | 0 => .fuelOut
  | fuel + 1 =>
    match parse_expression fuel prec toks with
    | .ok e rest =>
      if peekToken rest = .Op ')' then .ok (.CallExpr callee (acc ++ [e])) rest.tail
      else if peekToken rest = .Op ',' then
        parse_call_args fuel prec callee (acc ++ [e]) rest.tail
      else .err "Expected RPAREN or comma in argument list"
    | .err m => .err m
    | .fuelOut => .fuelOut

/-- `Parser::parse_var_expr` (lines 264-288). -/
def parse_var_expr (fuel : ℕ) (prec : OpTable) (toks : List Token) :
    PRes ExprAST :=
  match fuel with
  | 0 => .fuelOut
  | fuel + 1 =>
    match parse_var_names fuel prec [] (consume_and_ensure_token .Var toks) with
    | .ok var_names rest =>
      match parse_expression fuel prec (consume_and_ensure_token .In rest) with
      | .ok body rest => .ok (.VarExpr var_names body) rest
      | .err m => .err m
      | .fuelOut => .fuelOut
    | .err m => .err m
    | .fuelOut => .fuelOut

/-- The binding-collecting `loop` inside `parse_var_expr`
(lines 267-284). -/
def parse_var_names (fuel : ℕ) (prec : OpTable)
    (acc : List (String × Option ExprAST)) (toks : List Token) :
    PRes (List (String × Option ExprAST)) :=
  match fuel with
  | 0 => .fuelOut
  | fuel + 1 =>
    match consumeToken toks with
    | (.Identifier id, rest) =>
      match
        (match peekToken rest with
         | .Op '=' =>
           match parse_expression fuel prec (consume_and_ensure_token (.Op '=') rest) with
           | .ok e rest2 => .ok (some e) rest2
           | .err m => .err m
           | .fuelOut => .fuelOut
         | _ => .ok none rest : PRes (Option ExprAST))
      with
      | .ok init_val rest =>
        if peekToken rest = .Op ',' then
          parse_var_names fuel prec (acc ++ [(id, init_val)])
            (consume_and_ensure_token (.Op ',') rest)
        else .ok (acc ++ [(id, init_val)]) rest
      | .err m => .err m
      | .fuelOut => .fuelOut
    | (_, _) => .err "Expected Identifier"

end

/-- `Parser::parse_definition` (lines 349-361): `def`, prototype, body;
then — only after the body has been parsed successfully — a binary
operator overload registers its precedence.  The possibly updated
operator table is returned alongside the function. -/
def parse_definition (fuel : ℕ) (prec : OpTable) (toks : List Token) :
    PRes (FunctionAST × OpTable) :=
  match parse_prototype (consume_and_ensure_token .Def toks) with
  | .error m => .err m
  | .ok (proto, rest) =>
    match parse_expression fuel prec rest with
    | .ok expr rest2 =>
      match proto.operator with
      | some (.Binary op_name precedence) =>
        .ok (⟨proto, expr⟩, tableInsert prec op_name precedence) rest2
      | _ => .ok (⟨proto, expr⟩, prec) rest2
    | .err m => .err m
    | .fuelOut => .fuelOut

/-- `Parser::parse_extern`. -/
def parse_extern (toks : List Token) :
    Except String (PrototypeAST × List Token) :=
  parse_prototype (consume_and_ensure_token .Extern toks)

/-- `Parser::parse_top_level_expression` (lines 368-379): wrap a bare
expression into a `FunctionAST` under the anonymous prototype. -/
def parse_top_level_expression (fuel : ℕ) (prec : OpTable)
    (toks : List Token) : PRes FunctionAST :=
  match parse_expression fuel prec toks with
  | .ok expr rest => .ok ⟨⟨ANONYM_FUNCTION, [], none⟩, expr⟩ rest
  | .err m => .err m
  | .fuelOut => .fuelOut

/-- Result of `Parser::parse_top`: the item list, or the first error;
both carry the operator table as the `&mut`-shared `token_precedence`
map leaves it (errors do not roll it back). -/
inductive TopRes where
  | ok (g : List TopAST) (table : OpTable)
  | err (msg : String) (table : OpTable)
  | fuelOut
deriving Repr

/-- `Parser::parse_top` (lines 91-104). -/
def parse_top (fuel : ℕ) (prec : OpTable) (toks : List Token) : TopRes :=
  match fuel with
  | 0 => .fuelOut
  | fuel + 1 =>
    match peekToken toks with
    | .Def =>
      match parse_definition fuel prec toks with
      | .ok (f, prec2) rest =>
        match parse_top fuel prec2 rest with
        | .ok items table => .ok (.Function f :: items) table
        | e => e
      | .err m => .err m prec
      | .fuelOut => .fuelOut
    | .Extern =>
      match parse_extern toks with
      | .ok (p, rest) =>
        match parse_top fuel prec rest with
        | .ok items table => .ok (.Prototype p :: items) table
        | e => e
      | .error m => .err m prec
    | .Op ';' => parse_top fuel prec toks.tail
    | .EoF => .ok [] prec
    | _ =>
      match parse_top_level_expression fuel prec toks with
      | .ok f rest =>
        match parse_top fuel prec rest with
        | .ok items table => .ok (.Function f :: items) table
        | e => e
      | .err m => .err m prec
      | .fuelOut => .fuelOut

/-! ## Basic facts about the operator table -/

theorem tableGet_insert (t : OpTable) (c c' : Char) (p : Int) :
    tableGet (tableInsert t c p) c' = if c = c' then some p else tableGet t c' := by
  simp [tableInsert, tableGet]

theorem tableGet_insert_self (t : OpTable) (c : Char) (p : Int) :
    tableGet (tableInsert t c p) c = some p := by
  simp [tableGet_insert]

theorem tableGet_insert_isSome (t : OpTable) (c c' : Char) (p : Int)
    (h : (tableGet t c').isSome) : (tableGet (tableInsert t c p) c').isSome := by
  rw [tableGet_insert]
  split
  · rfl
  · exact h

/-! ## Values of the lexed numeric literals used below -/

theorem decimalValue_one : decimalValue ['1'] = 1 := by
  have h : decimalValue ['1'] =
      (digitsVal ['1'] : ℚ) + (digitsVal ([] : List Char) : ℚ) / 10 ^ (0 : ℕ) := rfl
  rw [h, show digitsVal ['1'] = 1 from rfl, show digitsVal ([] : List Char) = 0 from rfl]
  norm_num

theorem decimalValue_two : decimalValue ['2'] = 2 := by
  have h : decimalValue ['2'] =
      (digitsVal ['2'] : ℚ) + (digitsVal ([] : List Char) : ℚ) / 10 ^ (0 : ℕ) := rfl
  rw [h, show digitsVal ['2'] = 2 from rfl, show digitsVal ([] : List Char) = 0 from rfl]
  norm_num

theorem decimalValue_three : decimalValue ['3'] = 3 := by
  have h : decimalValue ['3'] =
      (digitsVal ['3'] : ℚ) + (digitsVal ([] : List Char) : ℚ) / 10 ^ (0 : ℕ) := rfl
  rw [h, show digitsVal ['3'] = 3 from rfl, show digitsVal ([] : List Char) = 0 from rfl]
  norm_num

/-! ## Claims -/

/-- C1: for the input `1+2*3`, parsing succeeds and the resulting body is
`BinaryExpr '+'` with left operand `NumberExpr 1` and right operand
`BinaryExpr '*'` of `NumberExpr 2` and `NumberExpr 3`; and for every pair
of infix operators of equal registered precedence, `parse_bin_op_rhs`
groups left-associatively (as in `a-b+c` parsed as
`(+) ((-) a b) c`). -/
theorem c1_precedence_and_left_assoc :
    (lexAll 10 ("1+2*3".toList) =
        some [.Number 1, .Op '+', .Number 2, .Op '*', .Number 3] ∧
      parse_top 20 BIN_OP_PRIORITY
          [.Number 1, .Op '+', .Number 2, .Op '*', .Number 3] =
        .ok [.Function ⟨⟨ANONYM_FUNCTION, [], none⟩,
              .BinaryExpr '+' (.NumberExpr 1)
                (.BinaryExpr '*' (.NumberExpr 2) (.NumberExpr 3))⟩]
          BIN_OP_PRIORITY) ∧
    (∀ (t : OpTable) (p : Int) (o₁ o₂ : Char) (lhs : ExprAST) (b c : String)
        (fuel : ℕ),
      tableGet t o₁ = some p → tableGet t o₂ = some p → 0 ≤ p → o₂ ≠ '(' →
      parse_bin_op_rhs (fuel + 5) t 0 lhs
          [.Op o₁, .Identifier b, .Op o₂, .Identifier c] =
        .ok (.BinaryExpr o₂ (.BinaryExpr o₁ lhs (.VariableExpr b))
              (.VariableExpr c)) []) := by
  refine ⟨⟨?_, rfl⟩, ?_⟩
  · have base : lexAll 10 ("1+2*3".toList) =
        some [.Number (decimalValue ['1']), .Op '+', .Number (decimalValue ['2']),
          .Op '*', .Number (decimalValue ['3'])] := rfl
    rw [base, decimalValue_one, decimalValue_two, decimalValue_three]
  · intro t p o₁ o₂ lhs b c fuel h₁ h₂ hp ho
    have hnn : ¬ p < 0 := not_lt.mpr hp
    have hpp : ¬ p < p := lt_irrefl p
    simp only [parse_bin_op_rhs, parse_unary, parse_primary, parse_identifier_expr,
      peekToken, consumeToken, List.tail_cons, get_token_precedence, h₁, h₂,
      hnn, hpp, ho, if_false, ite_false, reduceCtorEq, reduceIte,
      Token.Op.injEq, if_neg, ne_eq, not_false_eq_true]

/-- C1 witness: the general left-associativity part applied to the
default table at `o₁ = '-'`, `o₂ = '+'` (both registered at 20),
recovering the grouping of `a-b+c`. -/
theorem c1_witness :
    tableGet BIN_OP_PRIORITY '-' = some 20 ∧
    tableGet BIN_OP_PRIORITY '+' = some 20 ∧
    parse_bin_op_rhs 5 BIN_OP_PRIORITY 0 (.VariableExpr "a")
        [.Op '-', .Identifier "b", .Op '+', .Identifier "c"] =
      .ok (.BinaryExpr '+' (.BinaryExpr '-' (.VariableExpr "a")
            (.VariableExpr "b")) (.VariableExpr "c")) [] :=
  ⟨rfl, rfl,
    c1_precedence_and_left_assoc.2 BIN_OP_PRIORITY 20 '-' '+'
      (.VariableExpr "a") "b" "c" 0 rfl rfl (by decide) (by decide)⟩

/-- C2 (code bug): the claim states that a missing `then` or `else`
keyword makes parsing fail, but `Parser::consume_and_ensure_token`
checks `matches!(self.consume_token(), _token)`, where `_token` is an
irrefutable binding pattern, so the check always passes: the stream
`if 1 2 3 4 5` (no `then`, no `else`) parses successfully into
`Conditional(1, 3, 5)`, the tokens `2` and `4` being silently consumed
in place of the keywords. -/
theorem c2_missing_then_else_accepted :
    parse_top 30 BIN_OP_PRIORITY
        [.If, .Number 1, .Number 2, .Number 3, .Number 4, .Number 5] =
      .ok [.Function ⟨⟨ANONYM_FUNCTION, [], none⟩,
            .IfExpr (.NumberExpr 1) (.NumberExpr 3) (.NumberExpr 5)⟩]
        BIN_OP_PRIORITY := rfl

/-- C3 (code bug): the claim states a malformed numeric literal is
surfaced as a recoverable error, but `<Lexer as Iterator>::next` hits
`None => panic!()` when `consume_numeric` fails to parse the run:
lexing `1.2.3` panics (aborting the process) instead of returning an
error. -/
theorem c3_malformed_number_panics :
    lexerNext ("1.2.3".toList) = .panic := rfl

/-- C4: an operator character absent from the table gets the sentinel
precedence `-1`, which is strictly below every default precedence and
every registrable precedence (`[1,100]`); and in infix position, with
any minimum-precedence threshold `≥ 0`, the precedence-climbing loop
returns the accumulated left-hand side successfully. -/
theorem c4_unregistered_op_sentinel :
    ∀ (t : OpTable) (c : Char), tableGet t c = none →
      get_token_precedence t c = -1 ∧
      (∀ (c' : Char) (p : Int), tableGet BIN_OP_PRIORITY c' = some p →
        get_token_precedence t c < p) ∧
      (∀ p : Int, 1 ≤ p → p ≤ 100 → get_token_precedence t c < p) ∧
      (∀ (fuel : ℕ) (minPrec : Int) (lhs : ExprAST) (toks : List Token),
        0 ≤ minPrec → peekToken toks = .Op c →
        parse_bin_op_rhs (fuel + 1) t minPrec lhs toks = .ok lhs toks) := by
  intro t c h
  have hsent : get_token_precedence t c = -1 := by
    simp [get_token_precedence, h]
  refine ⟨hsent, ?_, ?_, ?_⟩
  · intro c' p hp
    rw [hsent]
    have : 1 ≤ p := by
      revert hp
      simp only [BIN_OP_PRIORITY, tableGet]
      split
      · intro hh
        injection hh with hh
        omega
      · split
        · intro hh
          injection hh with hh
          omega
        · split
          · intro hh
            injection hh with hh
            omega
          · split
            · intro hh
              injection hh with hh
              omega
            · split
              · intro hh
                injection hh with hh
                omega
              · intro hh
                exact absurd hh (by simp)
    omega
  · intro p h1 _
    rw [hsent]
    omega
  · intro fuel minPrec lhs toks hmin hpeek
    have hlt : get_token_precedence t c < minPrec := by
      rw [hsent]
      omega
    simp only [parse_bin_op_rhs, hpeek, hlt, if_pos, reduceIte]

/-- C4 witness: the sentinel behavior at the concrete unregistered
symbol `'@'` in the default session table, scanning `x @ y` from the
accumulated left-hand side `x`. -/
theorem c4_witness :
    get_token_precedence BIN_OP_PRIORITY '@' = -1 ∧
    parse_bin_op_rhs 1 BIN_OP_PRIORITY 0 (.VariableExpr "x")
        [.Op '@', .Identifier "y"] =
      .ok (.VariableExpr "x") [.Op '@', .Identifier "y"] :=
  ⟨(c4_unregistered_op_sentinel BIN_OP_PRIORITY '@' rfl).1,
    (c4_unregistered_op_sentinel BIN_OP_PRIORITY '@' rfl).2.2.2 0 0
      (.VariableExpr "x") [.Op '@', .Identifier "y"] (by decide) rfl⟩

/-- C5: a completed `def` of a binary-operator overload for symbol `c`
with precedence `p` leaves the session table mapping `c` to `p` (first
conjunct, for every successful `parse_definition`), and the registration
takes effect only after the body of the defining function itself: in the
concrete session below, the body `a@b` of `def binary@ 50 (a b)` parses
as just `a` (`@` is not yet infix, so `@b` becomes a separate top-level
unary expression), while the later expression `x@y` in the same session
parses `@` as an infix binary operator (at the registered
precedence 50). -/
theorem c5_overload_registration :
    (∀ (fuel : ℕ) (t : OpTable) (toks : List Token) (f : FunctionAST)
        (t2 : OpTable) (rest : List Token) (c : Char) (p : Int),
      parse_definition fuel t toks = .ok (f, t2) rest →
      f.proto.operator = some (.Binary c p) →
      tableGet t2 c = some p ∧ get_token_precedence t2 c = p) ∧
    parse_top 30 BIN_OP_PRIORITY
        [.Def, .Binary, .Op '@', .Number 50, .Op '(', .Identifier "a",
          .Identifier "b", .Op ')', .Identifier "a", .Op '@', .Identifier "b",
          .Op ';', .Identifier "x", .Op '@', .Identifier "y"] =
      .ok [.Function ⟨⟨"binary@", ["a", "b"], some (.Binary '@' 50)⟩,
              .VariableExpr "a"⟩,
            .Function ⟨⟨ANONYM_FUNCTION, [], none⟩,
              .UnaryExpr '@' (.VariableExpr "b")⟩,
            .Function ⟨⟨ANONYM_FUNCTION, [], none⟩,
              .BinaryExpr '@' (.VariableExpr "x") (.VariableExpr "y")⟩]
        (tableInsert BIN_OP_PRIORITY '@' 50) := by
  refine ⟨?_, rfl⟩
  intro fuel t toks f t2 rest c p h hop
  simp only [parse_definition] at h
  split at h
  · cases h
  · split at h
    · split at h
      · rename_i heq
        cases h
        simp only at hop
        rw [heq] at hop
        injection hop with hop
        injection hop with hc hp
        subst hc
        subst hp
        exact ⟨tableGet_insert_self _ _ _,
          by simp [get_token_precedence, tableGet_insert_self]⟩
      · rename_i hne
        cases h
        simp only at hop
        exact absurd hop (hne _ _)
    · cases h
    · cases h

/-- C5 witness: the registration part applied to the concrete definition
`def binary@ 50 (a b) 7`. -/
theorem c5_witness :
    tableGet (tableInsert BIN_OP_PRIORITY '@' 50) '@' = some 50 ∧
    get_token_precedence (tableInsert BIN_OP_PRIORITY '@' 50) '@' = 50 :=
  c5_overload_registration.1 10 BIN_OP_PRIORITY
    [.Def, .Binary, .Op '@', .Number 50, .Op '(', .Identifier "a",
      .Identifier "b", .Op ')', .Number 7]
    ⟨⟨"binary@", ["a", "b"], some (.Binary '@' 50)⟩, .NumberExpr 7⟩
    (tableInsert BIN_OP_PRIORITY '@' 50) [] '@' 50 rfl rfl

/-- C6: a supplied numeric precedence literal for a binary-operator
overload is rejected (`bail!`) exactly when it lies strictly below 1 or
strictly above 100; every value in `[1,100]` is accepted and stored
(truncated by `as isize`). -/
theorem c6_precedence_literal_range :
    ∀ (c : Char) (v : ℚ) (a b : String) (rest : List Token),
      (1 ≤ v → v ≤ 100 →
        parse_prototype ([.Binary, .Op c, .Number v, .Op '(', .Identifier a,
            .Identifier b, .Op ')'] ++ rest) =
          .ok (⟨genBinaryFuncName c, [a, b],
                some (.Binary c (floatTruncToInt v))⟩, rest)) ∧
      (v < 1 ∨ 100 < v →
        parse_prototype ([.Binary, .Op c, .Number v, .Op '(', .Identifier a,
            .Identifier b, .Op ')'] ++ rest) =
          .error "Invalid precedence: must be 1..100") := by
  intro c v a b rest
  constructor
  · intro h1 h2
    have hno : ¬(v < 1 ∨ v > 100) := by
      push_neg
      exact ⟨h1, h2⟩
    simp [parse_prototype, consumeToken, peekToken, hno, parsePrototypeRest,
      consume_and_ensure_token, protoArgsLoop]
  · intro h
    simp [parse_prototype, consumeToken, peekToken, h]

/-- C6 witness: the acceptance part at the example from the spec, `binary> 10`. -/
theorem c6_witness :
    parse_prototype [.Binary, .Op '>', .Number 10, .Op '(', .Identifier "a",
        .Identifier "b", .Op ')'] =
      .ok (⟨genBinaryFuncName '>', ["a", "b"],
            some (.Binary '>' (floatTruncToInt 10))⟩, []) :=
  (c6_precedence_literal_range '>' 10 "a" "b" []).1 (by decide) (by decide)

theorem protoArgsLoop_append (operator : Option Operator) (names : List String)
    (acc : List String) (rest : List Token) :
    protoArgsLoop operator (names.map Token.Identifier ++ .Op ')' :: rest) acc =
      match operator with
      | some (.Binary _ _) =>
        if (acc ++ names).length = 2 then .ok (acc ++ names, rest)
        else .error "args.len() == 2"
      | some .Unary =>
        if (acc ++ names).length = 1 then .ok (acc ++ names, rest)
        else .error "args.len() == 1"
      | none => .ok (acc ++ names, rest) := by
  induction names generalizing acc with
  | nil => simp [protoArgsLoop]
  | cons n ns ih =>
    simp only [List.map_cons, List.cons_append, protoArgsLoop, List.append_eq,
      ih, List.append_assoc, List.singleton_append, List.nil_append]

/-- C7: a binary-operator-overload prototype parses successfully exactly
when its parameter list declares 2 names, a unary-operator-overload
prototype exactly when it declares 1; any other count fails the
arity `ensure!`. -/
theorem c7_overload_arity :
    ∀ (c : Char) (names : List String) (rest : List Token),
      (names.length = 2 →
        parse_prototype ([.Binary, .Op c, .Op '('] ++
            names.map .Identifier ++ .Op ')' :: rest) =
          .ok (⟨genBinaryFuncName c, names, some (.Binary c 30)⟩, rest)) ∧
      (names.length ≠ 2 →
        parse_prototype ([.Binary, .Op c, .Op '('] ++
            names.map .Identifier ++ .Op ')' :: rest) =
          .error "args.len() == 2") ∧
      (names.length = 1 →
        parse_prototype ([.Unary, .Op c, .Op '('] ++
            names.map .Identifier ++ .Op ')' :: rest) =
          .ok (⟨genUnaryFuncName c, names, some .Unary⟩, rest)) ∧
      (names.length ≠ 1 →
        parse_prototype ([.Unary, .Op c, .Op '('] ++
            names.map .Identifier ++ .Op ')' :: rest) =
          .error "args.len() == 1") := by
  intro c names rest
  refine ⟨?_, ?_, ?_, ?_⟩ <;>
    intro h <;>
    simp [parse_prototype, consumeToken, peekToken, parsePrototypeRest,
      consume_and_ensure_token, protoArgsLoop_append, h]

/-- C7 witness: both overload forms at the correct arity
(`binary@ (x y)` and `unary! (x)`). -/
theorem c7_witness :
    parse_prototype [.Binary, .Op '@', .Op '(', .Identifier "x",
        .Identifier "y", .Op ')'] =
      .ok (⟨genBinaryFuncName '@', ["x", "y"], some (.Binary '@' 30)⟩, []) ∧
    parse_prototype [.Unary, .Op '!', .Op '(', .Identifier "x", .Op ')'] =
      .ok (⟨genUnaryFuncName '!', ["x"], some .Unary⟩, []) :=
  ⟨(c7_overload_arity '@' ["x", "y"] []).1 rfl,
    (c7_overload_arity '!' ["x"] []).2.2.1 rfl⟩

theorem keywordOrIdent_identifier {s₀ s : String}
    (h : keywordOrIdent s₀ = .Identifier s) : s = s₀ := by
  simp only [keywordOrIdent] at h
  repeat' split at h
  all_goals cases h
  all_goals rfl

theorem isAlphanumericChar_of_alpha {c : Char} (h : isAlphabeticChar c) :
    isAlphanumericChar c := by
  simp only [isAlphabeticChar] at h
  simp [isAlphanumericChar, Char.isAlphanum, h]

/-- Every `Identifier` token the lexer can produce is a nonempty run of
alphanumeric characters (in particular it can never be the reserved
name `__anon_expr`, which contains `'_'`). -/
theorem lexerNext_identifier_shape :
    ∀ (cs : List Char) (s : String) (rest : List Char),
      lexerNext cs = .token (.Identifier s) rest →
      s.data ≠ [] ∧ (∀ ch ∈ s.data, isAlphanumericChar ch) ∧
        s ≠ ANONYM_FUNCTION := by
  intro cs s rest h
  simp only [lexerNext] at h
  rcases hd : consumeWhitespaces cs with _ | ⟨c, tail⟩ <;> simp only [hd] at h
  · cases h
  · by_cases hn : isNumericStartChar c
    · rw [if_pos hn] at h
      rcases hcn : consume_numeric (c :: tail) with ⟨_ | v, r⟩ <;>
        rw [hcn] at h <;> cases h
    · rw [if_neg hn] at h
      by_cases ha : isAlphabeticChar c
      · rw [if_pos ha] at h
        simp only [consume_alphabetic] at h
        injection h with h1 _
        have hs : s = String.mk ((c :: tail).takeWhile isAlphanumericChar) :=
          keywordOrIdent_identifier h1
        have hc : isAlphanumericChar c := isAlphanumericChar_of_alpha ha
        have hrun : (c :: tail).takeWhile isAlphanumericChar =
            c :: tail.takeWhile isAlphanumericChar := by
          simp [List.takeWhile_cons, hc]
        have hdata : s.data = c :: tail.takeWhile isAlphanumericChar := by
          rw [hs, hrun]
        refine ⟨by simp [hdata], ?_, ?_⟩
        · intro ch hch
          rw [hs] at hch
          exact List.mem_takeWhile_imp hch
        · intro hanon
          rw [hanon] at hdata
          have hc' : c = '_' := by
            have : (ANONYM_FUNCTION : String).data =
                '_' :: "_anon_expr".data := rfl
            rw [this] at hdata
            exact (List.cons.injEq _ _ _ _ ▸ hdata).1.symm ▸ rfl
          rw [hc'] at hc
          exact absurd hc (by decide)
      · rw [if_neg ha] at h
        cases h

/-- C8: every top-level item beginning with none of `def`, `extern`,
`;` (or end of input) is parsed as a bare expression and wrapped into a
`FunctionAST` whose prototype is the anonymous one
(`__anon_expr`, no parameters, no operator descriptor); and the lexer
can never produce `Identifier "__anon_expr")`, since its identifiers are
alphanumeric runs and the reserved name contains `'_'`. -/
theorem c8_anonymous_wrapper :
    (∀ (fuel : ℕ) (t : OpTable) (toks : List Token) (f : FunctionAST)
        (rest : List Token),
      parse_top_level_expression fuel t toks = .ok f rest →
      f.proto = ⟨ANONYM_FUNCTION, [], none⟩) ∧
    (∀ (fuel : ℕ) (t : OpTable) (toks : List Token),
      peekToken toks ≠ .Def → peekToken toks ≠ .Extern →
      peekToken toks ≠ .Op ';' → peekToken toks ≠ .EoF →
      ∀ (f : FunctionAST) (rest : List Token) (items : List TopAST)
          (table : OpTable),
        parse_top_level_expression fuel t toks = .ok f rest →
        parse_top fuel t rest = .ok items table →
        parse_top (fuel + 1) t toks = .ok (.Function f :: items) table) ∧
    (∀ (cs : List Char) (s : String) (rest : List Char),
      lexerNext cs = .token (.Identifier s) rest → s ≠ ANONYM_FUNCTION) := by
  refine ⟨?_, ?_, ?_⟩
  · intro fuel t toks f rest h
    simp only [parse_top_level_expression] at h
    split at h
    · cases h
      rfl
    · cases h
    · cases h
  · intro fuel t toks h1 h2 h3 h4 f rest items table hptle hpt
    cases htok : peekToken toks with
    | Def => exact absurd htok h1
    | Extern => exact absurd htok h2
    | EoF => exact absurd htok h4
    | Op c =>
      by_cases hc : c = ';'
      · subst hc
        exact absurd htok h3
      · simp [parse_top, htok, hptle, hpt, hc]
    | Identifier nm => simp [parse_top, htok, hptle, hpt]
    | Number v => simp [parse_top, htok, hptle, hpt]
    | If => simp [parse_top, htok, hptle, hpt]
    | Then => simp [parse_top, htok, hptle, hpt]
    | Else => simp [parse_top, htok, hptle, hpt]
    | For => simp [parse_top, htok, hptle, hpt]
    | In => simp [parse_top, htok, hptle, hpt]
    | Var => simp [parse_top, htok, hptle, hpt]
    | Unary => simp [parse_top, htok, hptle, hpt]
    | Binary => simp [parse_top, htok, hptle, hpt]
  · intro cs s rest h
    exact (lexerNext_identifier_shape cs s rest h).2.2

/-- C8 witness: the dispatch and wrapper at the bare expression `1`, and
the lexer shape at the identifier input `ab`. -/
theorem c8_witness :
    parse_top 11 BIN_OP_PRIORITY [.Number 1] =
      .ok [.Function ⟨⟨ANONYM_FUNCTION, [], none⟩, .NumberExpr 1⟩]
        BIN_OP_PRIORITY ∧
    ("ab" : String) ≠ ANONYM_FUNCTION :=
  ⟨c8_anonymous_wrapper.2.1 10 BIN_OP_PRIORITY [.Number 1]
      (by decide) (by decide) (by decide) (by decide)
      ⟨⟨ANONYM_FUNCTION, [], none⟩, .NumberExpr 1⟩ [] [] BIN_OP_PRIORITY
      rfl rfl,
    c8_anonymous_wrapper.2.2 ("ab".toList) "ab" [] rfl⟩

theorem floatTruncToInt_nonneg_spec (v : ℚ) (hv : 0 ≤ v) :
    (floatTruncToInt v : ℚ) ≤ v ∧ v < floatTruncToInt v + 1 ∧
      0 ≤ floatTruncToInt v := by
  have hnum : (0 : ℤ) ≤ v.num := Rat.num_nonneg.mpr hv
  have hden : 0 < v.den := v.den_pos
  have htrunc : floatTruncToInt v = ((v.num.toNat / v.den : ℕ) : ℤ) := by
    simp [floatTruncToInt, hv]
  set n : ℕ := v.num.toNat with hn
  set d : ℕ := v.den with hdd
  have hvnum : ((n : ℕ) : ℤ) = v.num := Int.toNat_of_nonneg hnum
  have hcast : ((n : ℕ) : ℚ) = (v.num : ℚ) := by
    rw [← hvnum]
    push_cast
    ring
  have hv' : v = (n : ℚ) / (d : ℚ) := by
    rw [hcast, hdd]
    exact (Rat.num_div_den v).symm
  have hd0 : (0 : ℚ) < (d : ℚ) := by exact_mod_cast hden
  rw [htrunc]
  refine ⟨?_, ?_, by positivity⟩
  · rw [hv', le_div_iff₀ hd0]
    exact_mod_cast Nat.div_mul_le_self n d
  · rw [hv', div_lt_iff₀ hd0]
    have hlt : n < (n / d + 1) * d := by
      have hmod := Nat.div_add_mod n d
      have hmlt : n % d < d := Nat.mod_lt n hden
      calc n = d * (n / d) + n % d := hmod.symm
        _ < d * (n / d) + d := by omega
        _ = (n / d + 1) * d := by ring
    exact_mod_cast hlt

/-- C9: a binary-operator-overload prototype without a precedence
literal gets the default precedence 30; a supplied in-range literal is
stored truncated toward zero (`as isize`), so the stored precedence `p`
satisfies `p ≤ v < p + 1` for the nonnegative literal value `v`; at the
literal `35.9` the stored precedence is `35`. -/
theorem c9_default_precedence_and_truncation :
    (∀ (c : Char) (a b : String) (rest : List Token),
      parse_prototype ([.Binary, .Op c, .Op '(', .Identifier a, .Identifier b,
          .Op ')'] ++ rest) =
        .ok (⟨genBinaryFuncName c, [a, b], some (.Binary c 30)⟩, rest)) ∧
    (∀ v : ℚ, 0 ≤ v →
      (floatTruncToInt v : ℚ) ≤ v ∧ v < floatTruncToInt v + 1 ∧
        0 ≤ floatTruncToInt v) ∧
    parse_prototype [.Binary, .Op '@', .Number (359 / 10), .Op '(',
        .Identifier "a", .Identifier "b", .Op ')'] =
      .ok (⟨genBinaryFuncName '@', ["a", "b"], some (.Binary '@' 35)⟩, []) := by
  refine ⟨?_, fun v hv => floatTruncToInt_nonneg_spec v hv, ?_⟩
  · intro c a b rest
    simp [parse_prototype, consumeToken, peekToken, parsePrototypeRest,
      consume_and_ensure_token, protoArgsLoop]
  · have hno : ¬((359 / 10 : ℚ) < 1 ∨ (359 / 10 : ℚ) > 100) := by
      push_neg
      norm_num
    have h35 : floatTruncToInt (359 / 10 : ℚ) = 35 := by
      obtain ⟨hle, hlt, -⟩ :=
        floatTruncToInt_nonneg_spec (359 / 10 : ℚ) (by norm_num)
      have hub : floatTruncToInt (359 / 10 : ℚ) < 36 := by
        have : (floatTruncToInt (359 / 10 : ℚ) : ℚ) < 36 :=
          lt_of_le_of_lt hle (by norm_num)
        exact_mod_cast this
      have hlb : (35 : ℤ) < floatTruncToInt (359 / 10 : ℚ) + 1 := by
        have : (35 : ℚ) < (floatTruncToInt (359 / 10 : ℚ) : ℚ) + 1 :=
          lt_of_le_of_lt (by norm_num) hlt
        exact_mod_cast this
      omega
    simp [parse_prototype, consumeToken, peekToken, parsePrototypeRest,
      consume_and_ensure_token, protoArgsLoop, hno, h35]

/-- C9 witness: the default-precedence part at `binary+ (x y)` and the
truncation characterization at the literal value 50. -/
theorem c9_witness :
    parse_prototype [.Binary, .Op '+', .Op '(', .Identifier "x",
        .Identifier "y", .Op ')'] =
      .ok (⟨genBinaryFuncName '+', ["x", "y"], some (.Binary '+' 30)⟩, []) ∧
    ((floatTruncToInt 50 : ℚ) ≤ 50 ∧ (50 : ℚ) < floatTruncToInt 50 + 1 ∧
      0 ≤ floatTruncToInt 50) :=
  ⟨c9_default_precedence_and_truncation.1 '+' "x" "y" [],
    c9_default_precedence_and_truncation.2.1 50 (by decide)⟩

theorem parse_definition_table (fuel : ℕ) (t : OpTable) (toks : List Token)
    (f : FunctionAST) (t2 : OpTable) (rest : List Token)
    (h : parse_definition fuel t toks = .ok (f, t2) rest) :
    ∀ c, (tableGet t c).isSome → (tableGet t2 c).isSome := by
  intro c hc
  simp only [parse_definition] at h
  split at h
  · cases h
  · split at h
    · split at h
      · cases h
        exact tableGet_insert_isSome _ _ _ _ hc
      · cases h
        exact hc
    · cases h
    · cases h

/-- Entries present in the operator table when `parse_top` starts are
still present in the table it reports back, whether it succeeds or
fails: nothing ever removes or rolls back a registration. -/
theorem parse_top_table_monotone :
    ∀ (fuel : ℕ) (t : OpTable) (toks : List Token),
      (∀ items table, parse_top fuel t toks = .ok items table →
        ∀ c, (tableGet t c).isSome → (tableGet table c).isSome) ∧
      (∀ msg table, parse_top fuel t toks = .err msg table →
        ∀ c, (tableGet t c).isSome → (tableGet table c).isSome) := by
  intro fuel
  induction fuel with
  | zero =>
    intro t toks
    constructor <;> intro _ _ h <;> cases h
  | succ fuel ih =>
    intro t toks
    constructor
    · intro items table h c hc
      simp only [parse_top] at h
      split at h
      · -- peek is `def`
        split at h
        · -- parse_definition succeeded
          rename_i hdef
          have hc2 := parse_definition_table _ _ _ _ _ _ hdef c hc
          split at h
          · rename_i hrec
            cases h
            exact (ih _ _).1 _ _ hrec c hc2
          · exact (ih _ _).1 _ _ h c hc2
        · cases h
        · cases h
      · -- peek is `extern`
        split at h
        · split at h
          · rename_i hrec
            cases h
            exact (ih _ _).1 _ _ hrec c hc
          · exact (ih _ _).1 _ _ h c hc
        · cases h
      · -- `;` separator
        exact (ih _ _).1 _ _ h c hc
      · -- end of input
        cases h
        exact hc
      · -- bare expression
        split at h
        · split at h
          · rename_i hrec
            cases h
            exact (ih _ _).1 _ _ hrec c hc
          · exact (ih _ _).1 _ _ h c hc
        · cases h
        · cases h
    · intro msg table h c hc
      simp only [parse_top] at h
      split at h
      · -- peek is `def`
        split at h
        · rename_i hdef
          have hc2 := parse_definition_table _ _ _ _ _ _ hdef c hc
          split at h
          · cases h
          · exact (ih _ _).2 _ _ h c hc2
        · cases h
          exact hc
        · cases h
      · -- peek is `extern`
        split at h
        · split at h
          · cases h
          · exact (ih _ _).2 _ _ h c hc
        · cases h
          exact hc
      · -- `;` separator
        exact (ih _ _).2 _ _ h c hc
      · -- end of input
        cases h
      · -- bare expression
        split at h
        · split at h
          · cases h
          · exact (ih _ _).2 _ _ h c hc
        · cases h
          exact hc
        · cases h

/-- C10: when `parse_top` fails, registrations already in the table
(defaults, earlier calls of the session, and binary-overload `def`s that
completed earlier in the same call) remain — the table is never rolled
back (first conjunct); concretely, a call that registers `@ → 50` and
then fails still reports a table with `@ → 50`, no AST being returned
for the call, and a later call of the same session parses `@` as an
infix operator using that table. -/
theorem c10_table_not_rolled_back :
    (∀ (fuel : ℕ) (t : OpTable) (toks : List Token) (msg : String)
        (t2 : OpTable),
      parse_top fuel t toks = .err msg t2 →
      ∀ c, (tableGet t c).isSome → (tableGet t2 c).isSome) ∧
    parse_top 30 BIN_OP_PRIORITY
        [.Def, .Binary, .Op '@', .Number 50, .Op '(', .Identifier "a",
          .Identifier "b", .Op ')', .Identifier "a", .Op ';', .Op ')'] =
      .err "Unknown token when expecting an expression"
        (tableInsert BIN_OP_PRIORITY '@' 50) ∧
    tableGet (tableInsert BIN_OP_PRIORITY '@' 50) '@' = some 50 ∧
    parse_top 30 (tableInsert BIN_OP_PRIORITY '@' 50)
        [.Identifier "x", .Op '@', .Identifier "y"] =
      .ok [.Function ⟨⟨ANONYM_FUNCTION, [], none⟩,
            .BinaryExpr '@' (.VariableExpr "x") (.VariableExpr "y")⟩]
        (tableInsert BIN_OP_PRIORITY '@' 50) :=
  ⟨fun fuel t toks msg t2 h => (parse_top_table_monotone fuel t toks).2 msg t2 h,
    rfl, rfl, rfl⟩

/-- C10 witness: the preserved default registration of `'+'` through the
failing call of the concrete demonstration. -/
theorem c10_witness :
    (tableGet (tableInsert BIN_OP_PRIORITY '@' 50) '+').isSome :=
  c10_table_not_rolled_back.1 30 BIN_OP_PRIORITY
    [.Def, .Binary, .Op '@', .Number 50, .Op '(', .Identifier "a",
      .Identifier "b", .Op ')', .Identifier "a", .Op ';', .Op ')']
    "Unknown token when expecting an expression"
    (tableInsert BIN_OP_PRIORITY '@' 50) rfl '+' rfl

end Kaleido
